import Mathlib

/-!
Shallow embedding of the `MathUtils` statistical distribution library of the
Hypothesis_Testing repository (three JS variants: the three-family facade in
`src/unnamed/part_001`, and the chi-square-only copies in `src/unnamed/part_000`
and `src/hypothesis_testing_W_Problems/src/App.jsx`).

JS doubles are modelled as real numbers; `Math.pow` on the positive bases used
by the code is modelled by `Real.rpow`; the fixed-count `for` loops of the
Simpson integrators and the bisection solver become `Finset.range` sums and an
iterated step function.  Division by zero follows Lean's `x / 0 = 0` convention,
which is never exercised on the inputs of the theorems below.
-/

noncomputable section

open Real

namespace MathUtils

/-- The eight Lanczos coefficients `p[0] .. p[7]` of `MathUtils.gamma`. -/
def lanczosP : ℕ → ℝ
  | 0 => 676.5203681218851
  | 1 => -1259.1392167224028
  | 2 => 771.32342877765313
  | 3 => -176.61502916214059
  | 4 => 12.507343278686905
  | 5 => -0.13857109526572012
  | 6 => 9.9843695780195716e-6
  | 7 => 1.5056327351493116e-7
  | _ => 0

/-- The accumulator `x` of `MathUtils.gamma` after its 8-iteration loop:
`x = 0.99999999999980993 + Σ_{i<8} p[i] / (z + i + 1)`, where `z` is the
already-decremented argument. -/
def lanczosSum (z : ℝ) : ℝ :=
  0.99999999999980993 + ∑ i ∈ Finset.range 8, lanczosP i / (z + i + 1)

/-- The non-recursive (Lanczos) branch of `MathUtils.gamma`, taking the
*original* argument `z` (the code decrements it by 1 first; `t = z' + 8 - 0.5`
with `p.length = 8`). -/
def lanczos (z : ℝ) : ℝ :=
  Real.sqrt (2 * π) * (z - 1 + 7.5) ^ (z - 1 + 0.5) * Real.exp (-(z - 1 + 7.5)) *
    lanczosSum (z - 1)

/-- `MathUtils.gamma`: reflection formula for `z < 0.5`, Lanczos branch
otherwise. -/
def gamma (z : ℝ) : ℝ :=
  if z < 0.5 then π / (Real.sin (π * z) * lanczos (1 - z)) else lanczos z

/-- Fuel-indexed model of the *recursive* JS `MathUtils.gamma`, used to reason
about its termination behaviour: `none` means the recursion did not terminate
within the given depth budget. -/
def gammaFuel : ℕ → ℝ → Option ℝ
  | 0, _ => none
  | n + 1, z =>
    if z < 0.5 then
      (gammaFuel n (1 - z)).map (fun g => π / (Real.sin (π * z) * g))
    else
      some (lanczos z)

/-- `MathUtils.erf`: Abramowitz–Stegun 7.1.26 polynomial approximation. -/
def erf (x : ℝ) : ℝ :=
  (if 0 ≤ x then (1 : ℝ) else -1) *
    (1 - (((((1.061405429 * (1 / (1 + 0.3275911 * |x|)) + -1.453152027) *
        (1 / (1 + 0.3275911 * |x|))) + 1.421413741) * (1 / (1 + 0.3275911 * |x|)) +
        -0.284496736) * (1 / (1 + 0.3275911 * |x|)) + 0.254829592) *
      (1 / (1 + 0.3275911 * |x|)) * Real.exp (-(|x| * |x|)))

/-- `MathUtils.chiPdf`. -/
def chiPdf (x k : ℝ) : ℝ :=
  if x ≤ 0 ∨ k ≤ 0 then 0
  else x ^ (k / 2 - 1) * Real.exp (-x / 2) / ((2 : ℝ) ^ (k / 2) * gamma (k / 2))

/-- `MathUtils.chiCdf`: composite Simpson with `n = 100` subintervals, the left
endpoint sampled at `0.0001` (odd interior nodes `i = 1,3,…,99`, even interior
nodes `i = 2,4,…,98`). -/
def chiCdf (x k : ℝ) : ℝ :=
  if x ≤ 0 then 0
  else
    (x / 100 / 3) *
      (chiPdf 0.0001 k + chiPdf x k +
        4 * ∑ j ∈ Finset.range 50, chiPdf ((2 * j + 1) * (x / 100)) k +
        2 * ∑ j ∈ Finset.range 49, chiPdf ((2 * j + 2) * (x / 100)) k)

/-- `MathUtils.normPdf`. -/
def normPdf (x : ℝ) : ℝ :=
  (1 / Real.sqrt (2 * π)) * Real.exp (-0.5 * x * x)

/-- `MathUtils.normCdf`. -/
def normCdf (x : ℝ) : ℝ :=
  0.5 * (1 + erf (x / Real.sqrt 2))

/-- `MathUtils.tPdf`. -/
def tPdf (x v : ℝ) : ℝ :=
  (gamma ((v + 1) / 2) / (Real.sqrt (v * π) * gamma (v / 2))) *
    (1 + x * x / v) ^ (-(v + 1) / 2)

/-- `MathUtils.tCdf`: `0.5` at `x = 0`, otherwise `0.5 ± ` the composite Simpson
sum with `n = 200` subintervals and `h = |x| / 200` (odd interior nodes
`i = 1,3,…,199`, even interior nodes `i = 2,4,…,198`; the two endpoint samples
are `tPdf 0` and `tPdf x`). -/
def tCdf (x v : ℝ) : ℝ :=
  if x = 0 then 0.5
  else
    (if 0 < x then 0.5 + (|x| / 200 / 3) *
        (tPdf 0 v + tPdf x v +
          4 * ∑ j ∈ Finset.range 100, tPdf ((2 * j + 1) * (|x| / 200)) v +
          2 * ∑ j ∈ Finset.range 99, tPdf ((2 * j + 2) * (|x| / 200)) v)
     else 0.5 - (|x| / 200 / 3) *
        (tPdf 0 v + tPdf x v +
          4 * ∑ j ∈ Finset.range 100, tPdf ((2 * j + 1) * (|x| / 200)) v +
          2 * ∑ j ∈ Finset.range 99, tPdf ((2 * j + 2) * (|x| / 200)) v))

/-- `MathUtils.pdf`: dispatch on the family tag string. -/
def pdf (x df : ℝ) (ty : String) : ℝ :=
  if ty = "chi" then chiPdf x df else if ty = "t" then tPdf x df else normPdf x

/-- `MathUtils.cdf`: dispatch on the family tag string. -/
def cdf (x df : ℝ) (ty : String) : ℝ :=
  if ty = "chi" then chiCdf x df else if ty = "t" then tCdf x df else normCdf x

/-- One iteration of the bisection loop of `MathUtils.ppf`: the state is
`(low, high, mid)`; a fresh `mid` is computed, `cdf mid` is compared to the
target, and `low` (when `val < target`) or `high` (otherwise) moves to `mid`. -/
def bisectStep (f : ℝ → ℝ) (target : ℝ) (s : ℝ × ℝ × ℝ) : ℝ × ℝ × ℝ :=
  if f ((s.1 + s.2.1) / 2) < target then
    ((s.1 + s.2.1) / 2, s.2.1, (s.1 + s.2.1) / 2)
  else
    (s.1, (s.1 + s.2.1) / 2, (s.1 + s.2.1) / 2)

/-- `MathUtils.ppf` of the three-family facade (`src/unnamed/part_001`):
sentinels for `p ≤ 0` and `p ≥ 1`, otherwise 50 bisection iterations on
`cdf (·, df, type)` over the family's bracket, returning the last `mid`. -/
def ppf (targetArea df : ℝ) (ty : String) : ℝ :=
  if targetArea ≤ 0 then (if ty = "chi" then 0 else -10)
  else if 1 ≤ targetArea then (if ty = "chi" then 100 else 10)
  else
    ((bisectStep (fun m => cdf m df ty) targetArea)^[50]
      ((if ty = "chi" then 0 else -10),
       (if ty = "chi" then max 100 (df + 10) else 10), 0)).2.2

end MathUtils

namespace ChiOnly

/-- `MathUtils.ppf` of the chi-square-only variants (`src/unnamed/part_000` and
`App.jsx`): `0` for `p ≤ 0`, the bracket top `max 100 (k + 6·√(2k))` for
`p ≥ 1`, otherwise 50 bisection iterations on the chi-square CDF (whose source
text in those files is identical to `MathUtils.chiCdf`). -/
def ppf (targetArea k : ℝ) : ℝ :=
  if targetArea ≤ 0 then 0
  else if 1 ≤ targetArea then max 100 (k + 6 * Real.sqrt (2 * k))
  else
    ((MathUtils.bisectStep (fun m => MathUtils.chiCdf m k) targetArea)^[50]
      (0, max 100 (k + 6 * Real.sqrt (2 * k)), 0)).2.2

end ChiOnly

namespace Spec

/-- Modelled from the spec (§4.4): the one-sided Simpson integral of the t
density "with 200 subintervals from 0 to `|x|` (starting the sum at the
*center*, pdf(0), not an epsilon)"; `a` stands for `|x|`. -/
def tCenteredSimpson (a v : ℝ) : ℝ :=
  (a / 200 / 3) *
    (MathUtils.tPdf 0 v + MathUtils.tPdf a v +
      4 * ∑ j ∈ Finset.range 100, MathUtils.tPdf ((2 * j + 1) * (a / 200)) v +
      2 * ∑ j ∈ Finset.range 99, MathUtils.tPdf ((2 * j + 2) * (a / 200)) v)

end Spec

/-! ### Positivity of the Lanczos approximation -/

namespace MathUtils

/-- Numerator polynomial of `lanczosSum (u - 1/2)` over the common denominator
`∏_{i<8} (u + (2i+1)/2)`; all nine coefficients are strictly positive. -/
def lanczosNum (u : ℝ) : ℝ :=
  3929574158929267040701165245183 / 640000000000000000000000 +
  (11142117616473617268037085063703 / 1600000000000000000000000) * u +
  (2764184334364929712229615205959 / 800000000000000000000000) * u ^ 2 +
  (391829003123670841266555305051 / 400000000000000000000000) * u ^ 3 +
  (6942308725360599379575787701 / 40000000000000000000000) * u ^ 4 +
  (1967878931086344325202008517 / 100000000000000000000000) * u ^ 5 +
  (69721918402767367752244461 / 50000000000000000000000) * u ^ 6 +
  (1411458333333569854362569 / 25000000000000000000000) * u ^ 7 +
  (99999999999980993 / 100000000000000000) * u ^ 8

/-- The constant factor `gamma(1) / (√π · gamma(1/2))` of the code's t density
at `v = 1` (`tPdf x 1 = tConst / (1 + x²)`); mathematically it approximates
`1/π ≈ 0.3183`. -/
def tConst : ℝ := gamma 1 / (Real.sqrt π * gamma (1/2))

set_option maxHeartbeats 2000000 in
theorem lanczosSum_eq_div {u : ℝ} (hu : 0 ≤ u) :
    lanczosSum (u - 1/2) = lanczosNum u /
      ((u + 1/2) * (u + 3/2) * (u + 5/2) * (u + 7/2) * (u + 9/2) * (u + 11/2) *
        (u + 13/2) * (u + 15/2)) := by
  have hD : ((u + 1/2) * (u + 3/2) * (u + 5/2) * (u + 7/2) * (u + 9/2) * (u + 11/2) *
      (u + 13/2) * (u + 15/2)) ≠ 0 := by positivity
  unfold lanczosSum lanczosP lanczosNum
  simp only [Finset.sum_range_succ, Finset.sum_range_zero]
  push_cast
  rw [eq_div_iff hD]
  have n0 : (u - 1/2 + 0 + 1) ≠ 0 := by intro h; nlinarith
  have n1 : (u - 1/2 + 1 + 1) ≠ 0 := by intro h; nlinarith
  have n2 : (u - 1/2 + 2 + 1) ≠ 0 := by intro h; nlinarith
  have n3 : (u - 1/2 + 3 + 1) ≠ 0 := by intro h; nlinarith
  have n4 : (u - 1/2 + 4 + 1) ≠ 0 := by intro h; nlinarith
  have n5 : (u - 1/2 + 5 + 1) ≠ 0 := by intro h; nlinarith
  have n6 : (u - 1/2 + 6 + 1) ≠ 0 := by intro h; nlinarith
  have n7 : (u - 1/2 + 7 + 1) ≠ 0 := by intro h; nlinarith
  have e0 : (u - 1/2 + 0 + 1) * (u - 1/2 + 0 + 1)⁻¹ = 1 := mul_inv_cancel₀ n0
  have e1 : (u - 1/2 + 1 + 1) * (u - 1/2 + 1 + 1)⁻¹ = 1 := mul_inv_cancel₀ n1
  have e2 : (u - 1/2 + 2 + 1) * (u - 1/2 + 2 + 1)⁻¹ = 1 := mul_inv_cancel₀ n2
  have e3 : (u - 1/2 + 3 + 1) * (u - 1/2 + 3 + 1)⁻¹ = 1 := mul_inv_cancel₀ n3
  have e4 : (u - 1/2 + 4 + 1) * (u - 1/2 + 4 + 1)⁻¹ = 1 := mul_inv_cancel₀ n4
  have e5 : (u - 1/2 + 5 + 1) * (u - 1/2 + 5 + 1)⁻¹ = 1 := mul_inv_cancel₀ n5
  have e6 : (u - 1/2 + 6 + 1) * (u - 1/2 + 6 + 1)⁻¹ = 1 := mul_inv_cancel₀ n6
  have e7 : (u - 1/2 + 7 + 1) * (u - 1/2 + 7 + 1)⁻¹ = 1 := mul_inv_cancel₀ n7
  linear_combination
    ((676.5203681218851 : ℝ) * ((u + 3/2) * (u + 5/2) * (u + 7/2) * (u + 9/2) * (u + 11/2) * (u + 13/2) * (u + 15/2))) * e0 +
    ((-1259.1392167224028 : ℝ) * ((u + 1/2) * (u + 5/2) * (u + 7/2) * (u + 9/2) * (u + 11/2) * (u + 13/2) * (u + 15/2))) * e1 +
    ((771.32342877765313 : ℝ) * ((u + 1/2) * (u + 3/2) * (u + 7/2) * (u + 9/2) * (u + 11/2) * (u + 13/2) * (u + 15/2))) * e2 +
    ((-176.61502916214059 : ℝ) * ((u + 1/2) * (u + 3/2) * (u + 5/2) * (u + 9/2) * (u + 11/2) * (u + 13/2) * (u + 15/2))) * e3 +
    ((12.507343278686905 : ℝ) * ((u + 1/2) * (u + 3/2) * (u + 5/2) * (u + 7/2) * (u + 11/2) * (u + 13/2) * (u + 15/2))) * e4 +
    ((-0.13857109526572012 : ℝ) * ((u + 1/2) * (u + 3/2) * (u + 5/2) * (u + 7/2) * (u + 9/2) * (u + 13/2) * (u + 15/2))) * e5 +
    ((9.9843695780195716e-6 : ℝ) * ((u + 1/2) * (u + 3/2) * (u + 5/2) * (u + 7/2) * (u + 9/2) * (u + 11/2) * (u + 15/2))) * e6 +
    ((1.5056327351493116e-7 : ℝ) * ((u + 1/2) * (u + 3/2) * (u + 5/2) * (u + 7/2) * (u + 9/2) * (u + 11/2) * (u + 13/2))) * e7

theorem lanczosSum_pos {z : ℝ} (hz : -(1/2) ≤ z) : 0 < lanczosSum z := by
  have hu : 0 ≤ z + 1/2 := by linarith
  have hz' : z = (z + 1/2) - 1/2 := by ring
  rw [hz', lanczosSum_eq_div hu]
  have hN : 0 < lanczosNum (z + 1/2) := by
    unfold lanczosNum
    have h2 := pow_nonneg hu 2
    have h3 := pow_nonneg hu 3
    have h4 := pow_nonneg hu 4
    have h5 := pow_nonneg hu 5
    have h6 := pow_nonneg hu 6
    have h7 := pow_nonneg hu 7
    have h8 := pow_nonneg hu 8
    nlinarith [hu]
  have hD : 0 < (z + 1/2 + 1/2) * (z + 1/2 + 3/2) * (z + 1/2 + 5/2) *
      (z + 1/2 + 7/2) * (z + 1/2 + 9/2) * (z + 1/2 + 11/2) * (z + 1/2 + 13/2) *
      (z + 1/2 + 15/2) := by positivity
  exact div_pos hN hD

theorem lanczos_pos {z : ℝ} (hz : (1/2 : ℝ) ≤ z) : 0 < lanczos z := by
  unfold lanczos
  have h1 : (0:ℝ) < Real.sqrt (2 * π) := Real.sqrt_pos.2 (by positivity)
  have h2 : (0:ℝ) < z - 1 + 7.5 := by norm_num; linarith
  have h3 : 0 < lanczosSum (z - 1) := lanczosSum_pos (by linarith)
  have h4 : (0:ℝ) < (z - 1 + 7.5) ^ (z - 1 + 0.5) := Real.rpow_pos_of_pos h2 _
  positivity

theorem gamma_pos {z : ℝ} (hz : 0 < z) : 0 < gamma z := by
  unfold gamma
  by_cases h : z < 0.5
  · rw [if_pos h]
    have hs : 0 < Real.sin (π * z) := by
      apply Real.sin_pos_of_pos_of_lt_pi (by positivity)
      have : π * z < π * 1 := by
        apply mul_lt_mul_of_pos_left _ Real.pi_pos
        norm_num at h; linarith
      linarith
    have hl : 0 < lanczos (1 - z) := lanczos_pos (by norm_num at h ⊢; linarith)
    exact div_pos Real.pi_pos (mul_pos hs hl)
  · rw [if_neg h]
    exact lanczos_pos (by norm_num at h ⊢; linarith)

theorem chiPdf_nonneg (x k : ℝ) : 0 ≤ chiPdf x k := by
  unfold chiPdf
  by_cases h : x ≤ 0 ∨ k ≤ 0
  · rw [if_pos h]
  · rw [if_neg h]
    push_neg at h
    have hx : 0 < x := h.1
    have hk : 0 < k := h.2
    have h1 : (0:ℝ) < x ^ (k / 2 - 1) := Real.rpow_pos_of_pos hx _
    have h2 : (0:ℝ) < (2:ℝ) ^ (k / 2) := Real.rpow_pos_of_pos (by norm_num) _
    have h3 : 0 < gamma (k / 2) := gamma_pos (by linarith)
    positivity

theorem tPdf_pos (x : ℝ) {v : ℝ} (hv : 0 < v) : 0 < tPdf x v := by
  unfold tPdf
  have h1 : 0 < gamma ((v + 1) / 2) := gamma_pos (by linarith)
  have h2 : 0 < gamma (v / 2) := gamma_pos (by linarith)
  have h3 : (0:ℝ) < Real.sqrt (v * π) := Real.sqrt_pos.2 (mul_pos hv Real.pi_pos)
  have h4 : (0:ℝ) < 1 + x * x / v := by
    have h40 : (0:ℝ) ≤ x * x / v := div_nonneg (mul_self_nonneg x) hv.le
    linarith
  have h5 : (0:ℝ) < (1 + x * x / v) ^ (-(v + 1) / 2) := Real.rpow_pos_of_pos h4 _
  positivity

theorem normPdf_pos (x : ℝ) : 0 < normPdf x := by
  unfold normPdf
  have h1 : (0:ℝ) < Real.sqrt (2 * π) := Real.sqrt_pos.2 (by positivity)
  positivity

end MathUtils

/-! ### Small structural lemmas -/

namespace MathUtils

theorem tPdf_even (x v : ℝ) : tPdf (-x) v = tPdf x v := by
  unfold tPdf
  rw [neg_mul_neg]

theorem cdf_t_eq (x df : ℝ) : cdf x df "t" = tCdf x df := by
  simp [cdf]

theorem cdf_normal_eq (x df : ℝ) : cdf x df "normal" = normCdf x := by
  simp [cdf]

end MathUtils

/-! ### Claim theorems (structural claims) -/

open MathUtils

/-- C8: the JS `gamma` terminates on every real argument: with fuel 2 the
recursive model already produces the value of the (total) `gamma`, because for
`z < 0.5` the single recursive call receives `1 - z > 0.5`, which takes the
non-recursive Lanczos branch; so the recursion depth is at most one. -/
theorem c8_gamma_recursion_depth_le_one (z : ℝ) :
    gammaFuel 2 z = some (gamma z) ∧ (z < 0.5 → 0.5 < 1 - z) := by
  constructor
  · by_cases h : z < 0.5
    · have h2 : ¬(1 - z < 0.5) := by norm_num at h ⊢; linarith
      unfold gammaFuel
      rw [if_pos h]
      unfold gammaFuel
      rw [if_neg h2]
      unfold gamma
      rw [if_pos h]
      rfl
    · unfold gammaFuel gamma
      rw [if_neg h, if_neg h]
  · intro h
    norm_num at h ⊢
    linarith

/-- C7: the Student's-t and standard-normal densities of the facade are even in
`x` for every positive `df`. -/
theorem c7_pdf_symmetry (x df : ℝ) (hdf : 0 < df) :
    pdf x df "t" = pdf (-x) df "t" ∧ pdf x df "normal" = pdf (-x) df "normal" := by
  constructor
  · simp [pdf, tPdf_even]
  · simp [pdf, normPdf]

/-- Witness for C7 at `x = 1`, `df = 1`. -/
theorem c7_pdf_symmetry_witness :
    (0:ℝ) < 1 ∧ pdf 1 1 "t" = pdf (-1) 1 "t" :=
  ⟨by norm_num, (c7_pdf_symmetry 1 1 (by norm_num)).1⟩

/-- C9: `df` does not influence any normal-family result of the facade. -/
theorem c9_normal_ignores_df (x p df1 df2 : ℝ) :
    pdf x df1 "normal" = pdf x df2 "normal" ∧
    cdf x df1 "normal" = cdf x df2 "normal" ∧
    ppf p df1 "normal" = ppf p df2 "normal" := by
  refine ⟨by simp [pdf], by simp [cdf], ?_⟩
  simp [ppf, cdf]

/-- C10: any family tag other than `"chi"` and `"t"` (misspelled, empty, …) is
silently routed to the standard normal: `pdf`/`cdf` compute the normal
density/CDF and `ppf` returns exactly the normal-family quantile. -/
theorem c10_unknown_tag_falls_back_to_normal (x p df : ℝ) (tag : String)
    (h1 : tag ≠ "chi") (h2 : tag ≠ "t") :
    pdf x df tag = normPdf x ∧ cdf x df tag = normCdf x ∧
    ppf p df tag = ppf p df "normal" := by
  refine ⟨by simp [pdf, h1, h2], by simp [cdf, h1, h2], ?_⟩
  simp [ppf, cdf, h1, h2]

/-- Witness for C10 with the unrecognized tag `"gauss"`. -/
theorem c10_unknown_tag_witness :
    ("gauss" ≠ "chi" ∧ "gauss" ≠ "t") ∧
    pdf 1 3 "gauss" = normPdf 1 ∧ cdf 1 3 "gauss" = normCdf 1 ∧
    ppf 0.5 3 "gauss" = ppf 0.5 3 "normal" :=
  ⟨⟨by decide, by decide⟩,
    c10_unknown_tag_falls_back_to_normal 1 0.5 3 "gauss" (by decide) (by decide)⟩

/-- C3 counterexample: at `p = 1`, `df = 200` the three-family facade returns
the fixed sentinel `100` for the chi-square family, not
`max(100, df + 6·√(2·df)) = 320` as the claim states. -/
theorem c3_counterexample :
    ppf 1 200 "chi" = 100 ∧
    ppf 1 200 "chi" ≠ max 100 (200 + 6 * Real.sqrt (2 * 200)) := by
  have hv : ppf 1 200 "chi" = 100 := by simp [ppf]
  have hs : Real.sqrt (2 * 200) = 20 := by
    rw [show (2 * 200 : ℝ) = 20 ^ 2 by norm_num, Real.sqrt_sq (by norm_num : (0:ℝ) ≤ 20)]
  refine ⟨hv, ?_⟩
  rw [hv, hs]
  norm_num

/-- C3 amended: for `p ≥ 1` the three-family facade's `ppf` returns the fixed
sentinel `100` for the chi family and `10` for the normal and t families, while
the chi-square-only `ppf` variants (part_000 / App.jsx) return
`max(100, df + 6·√(2·df))`. -/
theorem c3_amended_sentinels (p df : ℝ) (hp : 1 ≤ p) :
    ppf p df "chi" = 100 ∧ ppf p df "t" = 10 ∧ ppf p df "normal" = 10 ∧
    ChiOnly.ppf p df = max 100 (df + 6 * Real.sqrt (2 * df)) := by
  have hp0 : ¬ p ≤ 0 := by linarith
  refine ⟨?_, ?_, ?_, ?_⟩ <;> simp [ppf, ChiOnly.ppf, hp0, hp]

/-- Witness for C3's amended claim at `p = 1`, `df = 200`. -/
theorem c3_amended_sentinels_witness :
    (1:ℝ) ≤ 1 ∧ ppf 1 200 "t" = 10 ∧
    ChiOnly.ppf 1 200 = max 100 (200 + 6 * Real.sqrt (2 * 200)) :=
  ⟨le_refl 1, (c3_amended_sentinels 1 200 (le_refl 1)).2.1,
    (c3_amended_sentinels 1 200 (le_refl 1)).2.2.2⟩

/-- C6: the facade density is nonnegative for every `x`, every `df > 0` and
every family tag, and the chi-square density is identically `0` off its
support (`x ≤ 0` or `k ≤ 0`). -/
theorem c6_pdf_nonneg :
    (∀ (x df : ℝ) (fam : String), 0 < df → 0 ≤ pdf x df fam) ∧
    (∀ x k : ℝ, x ≤ 0 ∨ k ≤ 0 → chiPdf x k = 0) := by
  constructor
  · intro x df fam hdf
    unfold pdf
    split_ifs
    · exact chiPdf_nonneg x df
    · exact (tPdf_pos x hdf).le
    · exact (normPdf_pos x).le
  · intro x k h
    unfold chiPdf
    rw [if_pos h]

/-- Witness for C6 at `x = 1, df = 2, fam = "t"` and at `x = -1, k = 3`. -/
theorem c6_pdf_nonneg_witness :
    (0:ℝ) < 2 ∧ ((-1:ℝ) ≤ 0 ∨ (3:ℝ) ≤ 0) ∧
    0 ≤ pdf 1 2 "t" ∧ chiPdf (-1) 3 = 0 :=
  ⟨by norm_num, Or.inl (by norm_num),
    c6_pdf_nonneg.1 1 2 "t" (by norm_num),
    c6_pdf_nonneg.2 (-1) 3 (Or.inl (by norm_num))⟩

/-- C5: for every `v > 0` the Student's-t CDF is exactly `0.5` at `x = 0`, and
equals `0.5` plus (for `x > 0`) resp. minus (for `x < 0`) the one-sided
200-subinterval Simpson integral of the t density from `0` to `|x|`, whose sum
starts at the center value `tPdf 0` rather than at an epsilon. -/
theorem c5_tcdf_centered_simpson (x v : ℝ) (hv : 0 < v) :
    (x = 0 → tCdf x v = 0.5) ∧
    (0 < x → tCdf x v = 0.5 + Spec.tCenteredSimpson |x| v) ∧
    (x < 0 → tCdf x v = 0.5 - Spec.tCenteredSimpson |x| v) := by
  refine ⟨?_, ?_, ?_⟩
  · intro hx
    unfold tCdf
    rw [if_pos hx]
  · intro hx
    unfold tCdf Spec.tCenteredSimpson
    rw [if_neg (ne_of_gt hx), if_pos hx, abs_of_pos hx]
  · intro hx
    unfold tCdf Spec.tCenteredSimpson
    rw [if_neg (ne_of_lt hx), if_neg (not_lt.2 hx.le), abs_of_neg hx]
    have : tPdf x v = tPdf (-x) v := (tPdf_even x v).symm
    rw [this]

/-- Witness for C5 at `x = 1`, `v = 1`. -/
theorem c5_tcdf_centered_simpson_witness :
    (0:ℝ) < 1 ∧ tCdf 1 1 = 0.5 + Spec.tCenteredSimpson |(1:ℝ)| 1 :=
  ⟨by norm_num, (c5_tcdf_centered_simpson 1 1 (by norm_num)).2.1 (by norm_num)⟩

/-! ### Bounds on the erf polynomial and the normal CDF -/

namespace MathUtils

set_option maxHeartbeats 1000000 in
theorem erf_mem_Icc (x : ℝ) : -1 ≤ erf x ∧ erf x ≤ 1 := by
  unfold erf
  set t := 1 / (1 + 0.3275911 * |x|) with ht
  have hden : (0:ℝ) < 1 + 0.3275911 * |x| := by positivity
  have ht0 : 0 < t := by rw [ht]; positivity
  have ht1 : t ≤ 1 := by
    rw [ht, div_le_one hden]
    nlinarith [abs_nonneg x]
  have hE0 : 0 < Real.exp (-(|x| * |x|)) := Real.exp_pos _
  have hE1 : Real.exp (-(|x| * |x|)) ≤ 1 :=
    Real.exp_le_one_iff.2 (by nlinarith [abs_nonneg x])
  have hr : 0 ≤ ((((1.061405429 * t + -1.453152027) * t + 1.421413741) * t +
      -0.284496736) * t + 0.254829592) := by
    nlinarith [sq_nonneg (t - 0.4), sq_nonneg (t * t - 0.3), mul_nonneg ht0.le ht0.le,
      mul_nonneg (mul_nonneg ht0.le ht0.le) ht0.le, sq_nonneg (t * t - t), sq_nonneg t,
      mul_nonneg (mul_nonneg ht0.le ht0.le) (mul_nonneg ht0.le ht0.le)]
  have hq0 : 0 ≤ ((((1.061405429 * t + -1.453152027) * t + 1.421413741) * t +
      -0.284496736) * t + 0.254829592) * t := mul_nonneg hr ht0.le
  have hq2 : ((((1.061405429 * t + -1.453152027) * t + 1.421413741) * t +
      -0.284496736) * t + 0.254829592) * t ≤ 1.4 := by
    nlinarith [sq_nonneg (t - 1), mul_nonneg ht0.le ht0.le, sub_nonneg.2 ht1,
      mul_nonneg (mul_nonneg ht0.le ht0.le) ht0.le,
      mul_nonneg (mul_nonneg (mul_nonneg ht0.le ht0.le) ht0.le) (sub_nonneg.2 ht1),
      mul_nonneg (mul_nonneg ht0.le ht0.le) (sub_nonneg.2 ht1),
      mul_nonneg ht0.le (sub_nonneg.2 ht1)]
  have hprod0 : 0 ≤ ((((1.061405429 * t + -1.453152027) * t + 1.421413741) * t +
      -0.284496736) * t + 0.254829592) * t * Real.exp (-(|x| * |x|)) :=
    mul_nonneg hq0 hE0.le
  have hprod2 : ((((1.061405429 * t + -1.453152027) * t + 1.421413741) * t +
      -0.284496736) * t + 0.254829592) * t * Real.exp (-(|x| * |x|)) ≤ 1.4 := by
    calc ((((1.061405429 * t + -1.453152027) * t + 1.421413741) * t +
        -0.284496736) * t + 0.254829592) * t * Real.exp (-(|x| * |x|)) ≤
        ((((1.061405429 * t + -1.453152027) * t + 1.421413741) * t +
        -0.284496736) * t + 0.254829592) * t * 1 := by
          exact mul_le_mul_of_nonneg_left hE1 hq0
      _ ≤ 1.4 := by rw [mul_one]; exact hq2
  set Q := ((((1.061405429 * t + -1.453152027) * t + 1.421413741) * t +
      -0.284496736) * t + 0.254829592) * t * Real.exp (-(|x| * |x|)) with hQ
  split_ifs with hsign
  · constructor <;> linarith
  · constructor <;> linarith

theorem normCdf_mem_Icc (x : ℝ) : 0 ≤ normCdf x ∧ normCdf x ≤ 1 := by
  unfold normCdf
  obtain ⟨h1, h2⟩ := erf_mem_Icc (x / Real.sqrt 2)
  constructor <;> linarith

theorem chiCdf_nonneg (x k : ℝ) : 0 ≤ chiCdf x k := by
  unfold chiCdf
  split_ifs with h
  · exact le_refl 0
  · push_neg at h
    have hs1 : 0 ≤ ∑ j ∈ Finset.range 50, chiPdf ((2 * j + 1) * (x / 100)) k :=
      Finset.sum_nonneg fun j _ => chiPdf_nonneg _ _
    have hs2 : 0 ≤ ∑ j ∈ Finset.range 49, chiPdf ((2 * j + 2) * (x / 100)) k :=
      Finset.sum_nonneg fun j _ => chiPdf_nonneg _ _
    have hp1 := chiPdf_nonneg 0.0001 k
    have hp2 := chiPdf_nonneg x k
    have hh : 0 ≤ x / 100 / 3 := by positivity
    positivity

end MathUtils

/-! ### The t density at `v = 1` and bounds for its constant factor -/

namespace MathUtils

theorem gamma_one_eq :
    gamma 1 = Real.sqrt (2 * π) * Real.sqrt 7.5 * Real.exp (-(7.5:ℝ)) * lanczosSum 0 := by
  unfold gamma
  rw [if_neg (by norm_num)]
  unfold lanczos
  rw [show ((1:ℝ) - 1 + 7.5) = 7.5 by norm_num, show ((1:ℝ) - 1 + 0.5) = 1/2 by norm_num,
    show ((1:ℝ) - 1) = 0 by norm_num, ← Real.sqrt_eq_rpow]

theorem gamma_half_eq :
    gamma (1/2) = Real.sqrt (2 * π) * Real.exp (-(7:ℝ)) * lanczosSum (-(1/2)) := by
  unfold gamma
  rw [if_neg (by norm_num)]
  unfold lanczos
  rw [show ((1:ℝ)/2 - 1 + 7.5) = 7 by norm_num, show ((1:ℝ)/2 - 1 + 0.5) = 0 by norm_num,
    show ((1:ℝ)/2 - 1) = -(1/2) by norm_num, Real.rpow_zero, mul_one]

theorem tPdf_one_eq (x : ℝ) : tPdf x 1 = tConst * (1 + x * x)⁻¹ := by
  unfold tPdf tConst
  rw [show (((1:ℝ) + 1) / 2) = 1 by norm_num, show (-((1:ℝ) + 1) / 2) = -1 by norm_num,
    one_mul, div_one, Real.rpow_neg_one]

theorem lanczosSum_zero_bounds : 263.38 ≤ lanczosSum 0 ∧ lanczosSum 0 ≤ 263.39 := by
  unfold lanczosSum lanczosP
  simp only [Finset.sum_range_succ, Finset.sum_range_zero]
  push_cast
  constructor <;> norm_num

theorem lanczosSum_neg_half_bounds :
    775.43 ≤ lanczosSum (-(1/2)) ∧ lanczosSum (-(1/2)) ≤ 775.44 := by
  unfold lanczosSum lanczosP
  simp only [Finset.sum_range_succ, Finset.sum_range_zero]
  push_cast
  constructor <;> norm_num

theorem sqrt_seven_half_bounds : 2.7386 ≤ Real.sqrt 7.5 ∧ Real.sqrt 7.5 ≤ 2.7387 := by
  constructor
  · rw [show (2.7386:ℝ) = Real.sqrt (2.7386^2) from (Real.sqrt_sq (by norm_num)).symm]
    exact Real.sqrt_le_sqrt (by norm_num)
  · rw [show (2.7387:ℝ) = Real.sqrt (2.7387^2) from (Real.sqrt_sq (by norm_num)).symm]
    exact Real.sqrt_le_sqrt (by norm_num)

theorem sqrt_pi_bounds : 1.77245 ≤ Real.sqrt π ∧ Real.sqrt π ≤ 1.77246 := by
  constructor
  · rw [show (1.77245:ℝ) = Real.sqrt (1.77245^2) from (Real.sqrt_sq (by norm_num)).symm]
    exact Real.sqrt_le_sqrt (by nlinarith [Real.pi_gt_d6])
  · rw [show (1.77246:ℝ) = Real.sqrt (1.77246^2) from (Real.sqrt_sq (by norm_num)).symm]
    exact Real.sqrt_le_sqrt (by nlinarith [Real.pi_lt_d6])

theorem exp_half_bounds : 1.64872 ≤ Real.exp 0.5 ∧ Real.exp 0.5 ≤ 1.64873 := by
  have hsq : Real.exp 0.5 * Real.exp 0.5 = Real.exp 1 := by
    rw [← Real.exp_add]; norm_num
  have hpos := Real.exp_pos (0.5:ℝ)
  constructor
  · nlinarith [Real.exp_one_gt_d9, hsq, hpos]
  · nlinarith [Real.exp_one_lt_d9, hsq, hpos]

theorem tConst_pos : 0 < tConst := by
  unfold tConst
  have h1 : 0 < gamma 1 := gamma_pos (by norm_num)
  have h2 : 0 < gamma (1/2) := gamma_pos (by norm_num)
  have h3 : (0:ℝ) < Real.sqrt π := Real.sqrt_pos.2 Real.pi_pos
  positivity

theorem tConst_ub : tConst ≤ 0.3185 := by
  unfold tConst
  have h2 : 0 < gamma (1/2) := gamma_pos (by norm_num)
  have h3 : (0:ℝ) < Real.sqrt π := Real.sqrt_pos.2 Real.pi_pos
  rw [div_le_iff (mul_pos h3 h2)]
  rw [gamma_one_eq, gamma_half_eq,
    show Real.exp (-(7:ℝ)) = Real.exp (-(7.5:ℝ)) * Real.exp 0.5 by
      rw [← Real.exp_add]; norm_num]
  have hA : (0:ℝ) < Real.sqrt (2*π) := Real.sqrt_pos.2 (by positivity)
  have hB := Real.exp_pos (-(7.5:ℝ))
  have key : Real.sqrt 7.5 * lanczosSum 0 ≤
      0.3185 * (Real.sqrt π * (Real.exp 0.5 * lanczosSum (-(1/2)))) := by
    have k1 : Real.sqrt 7.5 * lanczosSum 0 ≤ 2.7387 * 263.39 :=
      mul_le_mul sqrt_seven_half_bounds.2 lanczosSum_zero_bounds.2
        (by linarith [lanczosSum_zero_bounds.1]) (by norm_num)
    have k2 : (1.77245:ℝ) * (1.64872 * 775.43) ≤
        Real.sqrt π * (Real.exp 0.5 * lanczosSum (-(1/2))) := by
      apply mul_le_mul sqrt_pi_bounds.1
      · exact mul_le_mul exp_half_bounds.1 lanczosSum_neg_half_bounds.1 (by norm_num)
          (Real.exp_pos _).le
      · norm_num
      · exact (Real.sqrt_pos.2 Real.pi_pos).le
    calc Real.sqrt 7.5 * lanczosSum 0 ≤ 2.7387 * 263.39 := k1
      _ ≤ 0.3185 * ((1.77245:ℝ) * (1.64872 * 775.43)) := by norm_num
      _ ≤ 0.3185 * (Real.sqrt π * (Real.exp 0.5 * lanczosSum (-(1/2)))) := by
          exact mul_le_mul_of_nonneg_left k2 (by norm_num)
  calc Real.sqrt (2*π) * Real.sqrt 7.5 * Real.exp (-(7.5:ℝ)) * lanczosSum 0 =
      (Real.sqrt 7.5 * lanczosSum 0) * (Real.sqrt (2*π) * Real.exp (-(7.5:ℝ))) := by ring
    _ ≤ (0.3185 * (Real.sqrt π * (Real.exp 0.5 * lanczosSum (-(1/2))))) *
        (Real.sqrt (2*π) * Real.exp (-(7.5:ℝ))) := by
        exact mul_le_mul_of_nonneg_right key (by positivity)
    _ = 0.3185 * (Real.sqrt π * (Real.sqrt (2*π) * (Real.exp (-(7.5:ℝ)) * Real.exp 0.5) *
        lanczosSum (-(1/2)))) := by ring

theorem tConst_lb : 0.3 ≤ tConst := by
  unfold tConst
  have h2 : 0 < gamma (1/2) := gamma_pos (by norm_num)
  have h3 : (0:ℝ) < Real.sqrt π := Real.sqrt_pos.2 Real.pi_pos
  rw [le_div_iff (mul_pos h3 h2)]
  rw [gamma_one_eq, gamma_half_eq,
    show Real.exp (-(7:ℝ)) = Real.exp (-(7.5:ℝ)) * Real.exp 0.5 by
      rw [← Real.exp_add]; norm_num]
  have hA : (0:ℝ) < Real.sqrt (2*π) := Real.sqrt_pos.2 (by positivity)
  have hB := Real.exp_pos (-(7.5:ℝ))
  have key : 0.3 * (Real.sqrt π * (Real.exp 0.5 * lanczosSum (-(1/2)))) ≤
      Real.sqrt 7.5 * lanczosSum 0 := by
    have k2 : Real.sqrt π * (Real.exp 0.5 * lanczosSum (-(1/2))) ≤
        (1.77246:ℝ) * (1.64873 * 775.44) := by
      apply mul_le_mul sqrt_pi_bounds.2
      · exact mul_le_mul exp_half_bounds.2 lanczosSum_neg_half_bounds.2
          (by linarith [lanczosSum_neg_half_bounds.1]) (by norm_num)
      · exact mul_nonneg (Real.exp_pos _).le
          (by linarith [lanczosSum_neg_half_bounds.1])
      · norm_num
    have k1 : (2.7386:ℝ) * 263.38 ≤ Real.sqrt 7.5 * lanczosSum 0 :=
      mul_le_mul sqrt_seven_half_bounds.1 lanczosSum_zero_bounds.1 (by norm_num)
        (Real.sqrt_nonneg _)
    calc 0.3 * (Real.sqrt π * (Real.exp 0.5 * lanczosSum (-(1/2)))) ≤
        0.3 * ((1.77246:ℝ) * (1.64873 * 775.44)) := by
          exact mul_le_mul_of_nonneg_left k2 (by norm_num)
      _ ≤ (2.7386:ℝ) * 263.38 := by norm_num
      _ ≤ Real.sqrt 7.5 * lanczosSum 0 := k1
  calc 0.3 * (Real.sqrt π * (Real.sqrt (2*π) * (Real.exp (-(7.5:ℝ)) * Real.exp 0.5) *
      lanczosSum (-(1/2)))) =
      (0.3 * (Real.sqrt π * (Real.exp 0.5 * lanczosSum (-(1/2))))) *
        (Real.sqrt (2*π) * Real.exp (-(7.5:ℝ))) := by ring
    _ ≤ (Real.sqrt 7.5 * lanczosSum 0) * (Real.sqrt (2*π) * Real.exp (-(7.5:ℝ))) := by
        exact mul_le_mul_of_nonneg_right key (by positivity)
    _ = Real.sqrt (2*π) * Real.sqrt 7.5 * Real.exp (-(7.5:ℝ)) * lanczosSum 0 := by ring

end MathUtils

namespace MathUtils

theorem le_tCdf_of_pos {x v : ℝ} (hx : 0 < x) (hv : 0 < v) :
    0.5 + (x / 200 / 3) * tPdf 0 v ≤ tCdf x v := by
  unfold tCdf
  rw [if_neg (ne_of_gt hx), if_pos hx, abs_of_pos hx]
  have h2 : 0 < tPdf x v := tPdf_pos _ hv
  have h3 : 0 ≤ ∑ j ∈ Finset.range 100, tPdf ((2 * j + 1) * (x / 200)) v :=
    Finset.sum_nonneg fun j _ => (tPdf_pos _ hv).le
  have h4 : 0 ≤ ∑ j ∈ Finset.range 99, tPdf ((2 * j + 2) * (x / 200)) v :=
    Finset.sum_nonneg fun j _ => (tPdf_pos _ hv).le
  have hh : 0 ≤ x / 200 / 3 := by positivity
  nlinarith [mul_nonneg hh h3, mul_nonneg hh h4, mul_nonneg hh h2.le]

end MathUtils

/-- C2 counterexample: the t-family CDF of the facade leaves `[0, 1]`: at
`x = 10⁶`, `df = 1` the 200-node Simpson sum has step `h = 5000`, so
`cdf(10⁶, 1, "t") ≥ 0.5 + (5000/3)·tPdf(0,1) > 1`. -/
theorem c2_counterexample : 1 < cdf 1000000 1 "t" := by
  rw [cdf_t_eq]
  have h := le_tCdf_of_pos (x := 1000000) (v := 1) (by norm_num) (by norm_num)
  have h1 : tPdf 0 1 = tConst := by rw [tPdf_one_eq]; norm_num
  rw [h1] at h
  nlinarith [tConst_lb]

/-- C2 amended: the normal-family CDF does lie in `[0, 1]` for every argument,
and the chi-square CDF is always nonnegative; but the Simpson-integrated chi
and t CDFs are not bounded by 1 (and the t CDF can go below 0) for large
`|x|`. -/
theorem c2_amended_cdf_range :
    (∀ x df : ℝ, 0 ≤ cdf x df "normal" ∧ cdf x df "normal" ≤ 1) ∧
    ∀ x k : ℝ, 0 ≤ cdf x k "chi" := by
  constructor
  · intro x df
    rw [cdf_normal_eq]
    exact normCdf_mem_Icc x
  · intro x k
    have hck : cdf x k "chi" = chiCdf x k := by simp [cdf]
    rw [hck]
    exact chiCdf_nonneg x k

namespace MathUtils

theorem tCdf_one_pos_eq {x : ℝ} (hx : 0 < x) :
    tCdf x 1 = 0.5 + tConst * ((x / 200 / 3) * (1 + (1 + x * x)⁻¹ +
      4 * ∑ j ∈ Finset.range 100,
        (1 + ((2 * j + 1) * (x / 200)) * ((2 * j + 1) * (x / 200)))⁻¹ +
      2 * ∑ j ∈ Finset.range 99,
        (1 + ((2 * j + 2) * (x / 200)) * ((2 * j + 2) * (x / 200)))⁻¹)) := by
  unfold tCdf
  rw [if_neg (ne_of_gt hx), if_pos hx, abs_of_pos hx]
  simp only [tPdf_one_eq]
  rw [← Finset.mul_sum, ← Finset.mul_sum]
  have h0 : ((1:ℝ) + 0 * 0)⁻¹ = 1 := by norm_num
  rw [h0]
  ring

end MathUtils

set_option maxHeartbeats 4000000

/-- C4: the t-family CDF of the facade is *not* monotone in `x`: at `df = 1`,
`cdf(200, 1, "t") < cdf(100, 1, "t")` although `100 < 200` (the Simpson step
`h = |x|/200` grows with `x`, and past `x ≈ 97` the resulting quadrature loss
outweighs the true CDF's increase).  The two sides reduce to exact rational
multiples of the same positive constant `tConst`, so the comparison is decided
by exact rational arithmetic. -/
theorem c4_tcdf_not_monotone :
    (100:ℝ) < 200 ∧ cdf 200 1 "t" < cdf 100 1 "t" := by
  refine ⟨by norm_num, ?_⟩
  rw [cdf_t_eq, cdf_t_eq, tCdf_one_pos_eq (by norm_num : (0:ℝ) < 200),
    tCdf_one_pos_eq (by norm_num : (0:ℝ) < 100)]
  apply add_lt_add_left
  refine mul_lt_mul_of_pos_left ?_ tConst_pos
  simp only [Finset.sum_range_succ, Finset.sum_range_zero]
  push_cast
  norm_num

namespace MathUtils

theorem arctan_le_self_of_nonneg {u : ℝ} (hu : 0 ≤ u) : Real.arctan u ≤ u := by
  rcases eq_or_lt_of_le hu with h | h
  · rw [← h, Real.arctan_zero]
  · by_cases h2 : u < π / 2
    · have htan : u ≤ Real.tan u := (Real.lt_tan h h2).le
      calc Real.arctan u ≤ Real.arctan (Real.tan u) :=
            Real.arctan_strictMono.monotone htan
        _ = u := Real.arctan_tan (by linarith [Real.pi_pos]) h2
    · push_neg at h2
      exact ((Real.arctan_lt_pi_div_two u).le).trans h2

theorem arctan_ten_le : Real.arctan 10 ≤ 1.4712 := by
  have hinv : Real.arctan ((10:ℝ)⁻¹) = π / 2 - Real.arctan 10 :=
    Real.arctan_inv_of_pos (by norm_num)
  have hlow : (0.0996:ℝ) ≤ Real.arctan ((10:ℝ)⁻¹) := by
    have hsin : Real.sin 0.0996 ≤ 0.0996 - 0.0996^3/6 + 0.0996^4 * (5/96) := by
      have hb := Real.sin_bound (x := 0.0996) (by rw [abs_of_pos] <;> norm_num)
      rw [abs_of_pos (by norm_num : (0:ℝ) < 0.0996)] at hb
      have := (abs_le.1 hb).2
      linarith
    have hcos : (1:ℝ) - 0.0996^2/2 ≤ Real.cos 0.0996 := Real.one_sub_sq_div_two_le_cos
    have hcos0 : (0:ℝ) < 1 - 0.0996^2/2 := by norm_num
    have htan : Real.tan 0.0996 ≤ (10:ℝ)⁻¹ := by
      rw [Real.tan_eq_sin_div_cos]
      calc Real.sin 0.0996 / Real.cos 0.0996 ≤
          (0.0996 - 0.0996^3/6 + 0.0996^4 * (5/96)) / (1 - 0.0996^2/2) :=
            div_le_div (by norm_num) hsin hcos0 hcos
        _ ≤ (10:ℝ)⁻¹ := by norm_num
    calc (0.0996:ℝ) = Real.arctan (Real.tan 0.0996) :=
          (Real.arctan_tan (by nlinarith [Real.pi_gt_three])
            (by nlinarith [Real.pi_gt_three])).symm
      _ ≤ Real.arctan ((10:ℝ)⁻¹) := Real.arctan_strictMono.monotone htan
  have hpi : π < 3.141593 := Real.pi_lt_d6
  linarith

end MathUtils

namespace MathUtils

theorem continuous_inv_one_add_sq : Continuous fun u : ℝ => 1 / (1 + u^2) := by
  apply continuous_const.div (by continuity)
  intro u
  positivity

theorem term_le_integral {h c : ℝ} (hh : 0 < h) (hc : h ≤ c) :
    (1 + c * c)⁻¹ * (2 * h) ≤ ∫ u in (c - 2*h)..c, 1 / (1 + u^2) := by
  have hmono : ∀ u ∈ Set.Icc (c - 2*h) c, (1 + c * c)⁻¹ ≤ 1 / (1 + u^2) := by
    intro u hu
    rw [one_div]
    apply inv_le_inv_of_le (by positivity)
    nlinarith [hu.1, hu.2]
  calc (1 + c * c)⁻¹ * (2 * h) = (c - (c - 2*h)) • (1 + c * c)⁻¹ := by
        rw [smul_eq_mul]; ring
    _ = ∫ _ in (c - 2*h)..c, (1 + c * c)⁻¹ := (intervalIntegral.integral_const _).symm
    _ ≤ ∫ u in (c - 2*h)..c, 1 / (1 + u^2) := by
        apply intervalIntegral.integral_mono_on (by linarith)
          intervalIntegrable_const
          (continuous_inv_one_add_sq.intervalIntegrable _ _) hmono

theorem odd_term_le {h : ℝ} (hh : 0 < h) (j : ℕ) :
    (1 + ((2 * j + 1) * h) * ((2 * j + 1) * h))⁻¹ * (2 * h) ≤
      ∫ u in ((2 * (j:ℝ) - 1) * h)..((2 * ((j:ℝ) + 1) - 1) * h), 1 / (1 + u^2) := by
  have h1 : (2 * (j:ℝ) - 1) * h = ((2 * (j:ℝ) + 1) * h) - 2*h := by ring
  have h2 : (2 * ((j:ℝ) + 1) - 1) * h = (2 * (j:ℝ) + 1) * h := by ring
  rw [h1, h2]
  exact term_le_integral hh (by nlinarith [Nat.cast_nonneg (α := ℝ) j])

theorem even_term_le {h : ℝ} (hh : 0 < h) (j : ℕ) :
    (1 + ((2 * j + 2) * h) * ((2 * j + 2) * h))⁻¹ * (2 * h) ≤
      ∫ u in (2 * (j:ℝ) * h)..(2 * ((j:ℝ) + 1) * h), 1 / (1 + u^2) := by
  have h1 : 2 * (j:ℝ) * h = ((2 * (j:ℝ) + 2) * h) - 2*h := by ring
  have h2 : 2 * ((j:ℝ) + 1) * h = (2 * (j:ℝ) + 2) * h := by ring
  rw [h1, h2]
  exact term_le_integral hh (by nlinarith [Nat.cast_nonneg (α := ℝ) j])

theorem odd_sum_mul_le {h : ℝ} (hh : 0 < h) :
    (∑ j ∈ Finset.range 100, (1 + ((2 * j + 1) * h) * ((2 * j + 1) * h))⁻¹) * (2 * h) ≤
      Real.arctan (199 * h) + Real.arctan h := by
  have hint : ∀ k : ℕ, k < 100 → IntervalIntegrable (fun u : ℝ => 1 / (1 + u^2))
      MeasureTheory.volume ((2 * (k:ℝ) - 1) * h) ((2 * ((k + 1 : ℕ):ℝ) - 1) * h) :=
    fun k _ => continuous_inv_one_add_sq.intervalIntegrable _ _
  calc (∑ j ∈ Finset.range 100, (1 + ((2 * j + 1) * h) * ((2 * j + 1) * h))⁻¹) * (2 * h) =
      ∑ j ∈ Finset.range 100, (1 + ((2 * j + 1) * h) * ((2 * j + 1) * h))⁻¹ * (2 * h) :=
        Finset.sum_mul _ _ _
    _ ≤ ∑ j ∈ Finset.range 100,
        ∫ u in ((2 * (j:ℝ) - 1) * h)..((2 * ((j + 1 : ℕ):ℝ) - 1) * h), 1 / (1 + u^2) := by
        apply Finset.sum_le_sum
        intro j _
        push_cast
        exact odd_term_le hh j
    _ = ∫ u in ((2 * ((0:ℕ):ℝ) - 1) * h)..((2 * ((100:ℕ):ℝ) - 1) * h), 1 / (1 + u^2) :=
        intervalIntegral.sum_integral_adjacent_intervals hint
    _ = Real.arctan (199 * h) + Real.arctan h := by
        push_cast
        rw [show ((2:ℝ) * 0 - 1) * h = -h by ring, show ((2:ℝ) * 100 - 1) * h = 199 * h by ring]
        rw [integral_one_div_one_add_sq, Real.arctan_neg]
        ring

theorem even_sum_mul_le {h : ℝ} (hh : 0 < h) :
    (∑ j ∈ Finset.range 99, (1 + ((2 * j + 2) * h) * ((2 * j + 2) * h))⁻¹) * (2 * h) ≤
      Real.arctan (198 * h) := by
  have hint : ∀ k : ℕ, k < 99 → IntervalIntegrable (fun u : ℝ => 1 / (1 + u^2))
      MeasureTheory.volume (2 * (k:ℝ) * h) (2 * ((k + 1 : ℕ):ℝ) * h) :=
    fun k _ => continuous_inv_one_add_sq.intervalIntegrable _ _
  calc (∑ j ∈ Finset.range 99, (1 + ((2 * j + 2) * h) * ((2 * j + 2) * h))⁻¹) * (2 * h) =
      ∑ j ∈ Finset.range 99, (1 + ((2 * j + 2) * h) * ((2 * j + 2) * h))⁻¹ * (2 * h) :=
        Finset.sum_mul _ _ _
    _ ≤ ∑ j ∈ Finset.range 99,
        ∫ u in (2 * (j:ℝ) * h)..(2 * ((j + 1 : ℕ):ℝ) * h), 1 / (1 + u^2) := by
        apply Finset.sum_le_sum
        intro j _
        push_cast
        exact even_term_le hh j
    _ = ∫ u in (2 * ((0:ℕ):ℝ) * h)..(2 * ((99:ℕ):ℝ) * h), 1 / (1 + u^2) :=
        intervalIntegral.sum_integral_adjacent_intervals hint
    _ = Real.arctan (198 * h) := by
        push_cast
        rw [show (2:ℝ) * 0 * h = 0 by ring, show (2:ℝ) * 99 * h = 198 * h by ring]
        rw [integral_one_div_one_add_sq, Real.arctan_zero]
        ring

end MathUtils

namespace MathUtils

theorem tCdf_one_neg_eq {x : ℝ} (hx : x < 0) :
    tCdf x 1 = 0.5 - tConst * ((-x / 200 / 3) * (1 + (1 + x * x)⁻¹ +
      4 * ∑ j ∈ Finset.range 100,
        (1 + ((2 * j + 1) * (-x / 200)) * ((2 * j + 1) * (-x / 200)))⁻¹ +
      2 * ∑ j ∈ Finset.range 99,
        (1 + ((2 * j + 2) * (-x / 200)) * ((2 * j + 2) * (-x / 200)))⁻¹)) := by
  unfold tCdf
  rw [if_neg (ne_of_lt hx), if_neg (not_lt.2 hx.le), abs_of_neg hx]
  simp only [tPdf_one_eq]
  rw [← Finset.mul_sum, ← Finset.mul_sum]
  have h0 : ((1:ℝ) + 0 * 0)⁻¹ = 1 := by norm_num
  rw [h0]
  ring

theorem t_simpson_le {x : ℝ} (hx0 : x < 0) (hx10 : -10 ≤ x) :
    tConst * ((-x / 200 / 3) * (1 + (1 + x * x)⁻¹ +
      4 * ∑ j ∈ Finset.range 100,
        (1 + ((2 * j + 1) * (-x / 200)) * ((2 * j + 1) * (-x / 200)))⁻¹ +
      2 * ∑ j ∈ Finset.range 99,
        (1 + ((2 * j + 2) * (-x / 200)) * ((2 * j + 2) * (-x / 200)))⁻¹)) ≤ 0.485 := by
  have hh : (0:ℝ) < -x / 200 := by linarith
  have hh20 : -x / 200 ≤ 1/20 := by linarith
  have H1 := odd_sum_mul_le hh
  have H2 := even_sum_mul_le hh
  have H3 : Real.arctan (199 * (-x / 200)) ≤ 1.4712 :=
    le_trans (Real.arctan_strictMono.monotone (by linarith)) arctan_ten_le
  have H4 : Real.arctan (198 * (-x / 200)) ≤ 1.4712 :=
    le_trans (Real.arctan_strictMono.monotone (by linarith)) arctan_ten_le
  have H5 : Real.arctan (-x / 200) ≤ -x / 200 := arctan_le_self_of_nonneg hh.le
  have hxx : (0:ℝ) < 1 + x * x := by nlinarith [mul_self_nonneg x]
  have H6 : (-x / 200) * (1 + x * x)⁻¹ ≤ 1/400 := by
    rw [← div_eq_mul_inv, div_le_iff hxx]
    nlinarith [sq_nonneg (x + 1)]
  have H8a : (0:ℝ) ≤ (1 + x * x)⁻¹ := by positivity
  have H8b : (1 + x * x)⁻¹ ≤ 1 := by
    rw [inv_le_one_iff₀]
    right; nlinarith
  have H7a : (0:ℝ) ≤ ∑ j ∈ Finset.range 100,
      (1 + ((2 * j + 1) * (-x / 200)) * ((2 * j + 1) * (-x / 200)))⁻¹ :=
    Finset.sum_nonneg fun j _ => by positivity
  have H7b : (0:ℝ) ≤ ∑ j ∈ Finset.range 99,
      (1 + ((2 * j + 2) * (-x / 200)) * ((2 * j + 2) * (-x / 200)))⁻¹ :=
    Finset.sum_nonneg fun j _ => by positivity
  have hInnerPos : (0:ℝ) ≤ 1 + (1 + x * x)⁻¹ +
      4 * ∑ j ∈ Finset.range 100,
        (1 + ((2 * j + 1) * (-x / 200)) * ((2 * j + 1) * (-x / 200)))⁻¹ +
      2 * ∑ j ∈ Finset.range 99,
        (1 + ((2 * j + 2) * (-x / 200)) * ((2 * j + 2) * (-x / 200)))⁻¹ := by
    linarith
  have hInner : (-x / 200 / 3) * (1 + (1 + x * x)⁻¹ +
      4 * ∑ j ∈ Finset.range 100,
        (1 + ((2 * j + 1) * (-x / 200)) * ((2 * j + 1) * (-x / 200)))⁻¹ +
      2 * ∑ j ∈ Finset.range 99,
        (1 + ((2 * j + 2) * (-x / 200)) * ((2 * j + 2) * (-x / 200)))⁻¹) ≤ 1.5221 := by
    nlinarith [H1, H2, H3, H4, H5, H6, H7a, H7b, hh, hh20, H8a, H8b]
  calc tConst * ((-x / 200 / 3) * (1 + (1 + x * x)⁻¹ +
      4 * ∑ j ∈ Finset.range 100,
        (1 + ((2 * j + 1) * (-x / 200)) * ((2 * j + 1) * (-x / 200)))⁻¹ +
      2 * ∑ j ∈ Finset.range 99,
        (1 + ((2 * j + 2) * (-x / 200)) * ((2 * j + 2) * (-x / 200)))⁻¹)) ≤
      0.3185 * 1.5221 :=
        mul_le_mul tConst_ub hInner
          (mul_nonneg (by positivity) hInnerPos) (by norm_num)
    _ ≤ 0.485 := by norm_num

theorem tCdf_one_ge_on_bracket {y : ℝ} (h1 : -10 ≤ y) (h2 : y ≤ 10) :
    (0.015:ℝ) ≤ tCdf y 1 := by
  rcases lt_trichotomy y 0 with hneg | hzero | hpos
  · rw [tCdf_one_neg_eq hneg]
    have := t_simpson_le hneg h1
    linarith
  · unfold tCdf
    rw [if_pos hzero]
    norm_num
  · have h3 := le_tCdf_of_pos hpos (by norm_num : (0:ℝ) < 1)
    have h4 : 0 < tPdf 0 1 := tPdf_pos 0 (by norm_num)
    nlinarith [mul_pos (show (0:ℝ) < y / 200 / 3 by positivity) h4]

theorem bisect_mem_Icc (f : ℝ → ℝ) (tgt lo hi : ℝ) (n : ℕ) (s : ℝ × ℝ × ℝ)
    (h1 : lo ≤ s.1) (h2 : s.1 ≤ s.2.1) (h3 : s.2.1 ≤ hi) (h4 : lo ≤ s.2.2)
    (h5 : s.2.2 ≤ hi) :
    lo ≤ ((bisectStep f tgt)^[n] s).1 ∧
    ((bisectStep f tgt)^[n] s).1 ≤ ((bisectStep f tgt)^[n] s).2.1 ∧
    ((bisectStep f tgt)^[n] s).2.1 ≤ hi ∧
    lo ≤ ((bisectStep f tgt)^[n] s).2.2 ∧ ((bisectStep f tgt)^[n] s).2.2 ≤ hi := by
  induction n generalizing s with
  | zero => exact ⟨h1, h2, h3, h4, h5⟩
  | succ n ih =>
    rw [Function.iterate_succ_apply]
    refine ih _ ?_ ?_ ?_ ?_ ?_ <;>
      (unfold bisectStep; split_ifs <;> dsimp only <;> linarith)

theorem ppf_t_mem_bracket {p df : ℝ} (h0 : 0 < p) (h1 : p < 1) :
    -10 ≤ ppf p df "t" ∧ ppf p df "t" ≤ 10 := by
  unfold ppf
  rw [if_neg (by linarith), if_neg (by linarith)]
  have hts : (("t":String) = "chi") = False := by simp
  simp only [hts, if_false]
  have h := bisect_mem_Icc (fun m => cdf m df "t") p (-10) 10 50 (-10, 10, 0)
    (by norm_num) (by norm_num) (by norm_num) (by norm_num) (by norm_num)
  exact ⟨h.2.2.2.1, h.2.2.2.2⟩

end MathUtils

/-- C1: the round-trip `cdf(ppf(p, df, family), df, family) ≈ p` fails at the
t family with `df = 1`, `p = 0.01`: the bisection bracket `[-10, 10]` cannot
reach the true quantile (≈ −31.8), and `tCdf` is at least `0.015` everywhere on
that bracket, so the returned value's CDF misses `0.01` by more than `10⁻³`. -/
theorem c1_roundtrip_fails_at_t_df1 :
    (0.001:ℝ) < |cdf (ppf 0.01 1 "t") 1 "t" - 0.01| := by
  obtain ⟨hm1, hm2⟩ := @ppf_t_mem_bracket 0.01 1 (by norm_num) (by norm_num)
  have hlb := tCdf_one_ge_on_bracket hm1 hm2
  rw [cdf_t_eq]
  rw [abs_of_pos (by linarith)]
  linarith
